import Mathlib

/-!
Shallow embedding of the team/invitation/recommendation core of the
ProjectMates application (src/services/apiService.ts together with the
record types of types.ts).  The document store is modelled as four lists
of records keyed by string ids; Firestore primitives (setDoc, updateDoc,
deleteDoc, arrayUnion, arrayRemove, batched writes) are modelled by the
helper functions below.  A batched write is atomic: an operation either
returns the fully updated store or an error together with the store it
leaves behind (for batches, the unchanged input store; for the sequential
writes of deleteUserAccount, the partially updated store).
-/

namespace ProjectMates

/-! ## Data model (types.ts) -/

/-- A user profile document (interface User of types.ts).  Optional
fields of the TypeScript interface are modelled with Option. -/
structure User where
  id : String
  name : String
  avatarInitial : String
  title : String
  year : Nat
  about : String
  email : String
  department : String
  interests : List String
  skills : List String
  workingPreferences : List String
  teamStatus : String
  profileComplete : Option Bool
  teamId : Option String
  isTeamOwner : Option Bool
deriving Repr, DecidableEq

/-- The embedded sender summary of an invitation. -/
structure FromUser where
  id : String
  name : String
deriving Repr, DecidableEq

/-- An invitation document (interface Invitation of types.ts);
createdAt timestamps are modelled as naturals. -/
structure Invitation where
  id : String
  teamId : String
  teamName : String
  fromUser : FromUser
  toUserId : String
  status : String
  createdAt : Nat
deriving Repr, DecidableEq

/-- A team document (interface Team of types.ts): the members field is a
denormalized list of user snapshots. -/
structure Team where
  id : String
  name : String
  ownerId : String
  members : List User
  skills : List String
  interests : List String
deriving Repr, DecidableEq

/-- The lastMessage summary stored on a conversation document. -/
structure LastMessage where
  text : String
  senderId : String
  timestamp : Nat
deriving Repr, DecidableEq

/-- A conversation participant summary (interface ConversationParticipant). -/
structure ConversationParticipant where
  id : String
  name : String
  avatarInitial : String
deriving Repr, DecidableEq

/-- A conversation document; the participants map is an association list
from user id to participant summary. -/
structure Conversation where
  id : String
  participantIds : List String
  participants : List (String × ConversationParticipant)
  lastMessage : Option LastMessage
  isGroupChat : Bool
  groupName : Option String
  teamId : Option String
deriving Repr, DecidableEq

/-- The document store: the four collections the core logic touches. -/
structure Store where
  users : List User
  teams : List Team
  invitations : List Invitation
  conversations : List Conversation
deriving Repr, DecidableEq

/-! ## JavaScript / Firestore primitive semantics -/

/-- JavaScript truthiness of an optional boolean field
(undefined is falsy). -/
def jsTruthy : Option Bool → Bool
  | some b => b
  | none => false

/-- JavaScript truthiness of an optional string (undefined and the
empty string are falsy). -/
def optTruthy : Option String → Bool
  | some s => !(s == "")
  | none => false

/-- Accumulator for jsSetOfList. -/
def jsSetAux (acc : List String) : List String → List String
  | [] => acc
  | x :: xs => jsSetAux (if x ∈ acc then acc else acc ++ [x]) xs

/-- Array.from(new Set(l)): removes duplicates keeping the first
occurrence of each element, in insertion order. -/
def jsSetOfList (l : List String) : List String := jsSetAux [] l

/-- Firestore arrayUnion of a single user snapshot: appends the element
if it is not already present (element-wise equality). -/
def arrayUnionMember (l : List User) (x : User) : List User :=
  if x ∈ l then l else l ++ [x]

/-- Firestore arrayUnion of a single string. -/
def arrayUnionStr (l : List String) (x : String) : List String :=
  if x ∈ l then l else l ++ [x]

/-- Upsert into a participants association list (a dotted-path map set
on the conversation document). -/
def mapInsert (l : List (String × ConversationParticipant)) (k : String)
    (v : ConversationParticipant) : List (String × ConversationParticipant) :=
  if l.any (fun p => p.1 == k) then
    l.map (fun p => if p.1 == k then (k, v) else p)
  else l ++ [(k, v)]

/-- Point lookup of a document by id in a collection. -/
def findBy {α : Type} (idOf : α → String) (i : String) (l : List α) : Option α :=
  l.find? (fun x => idOf x == i)

/-- updateDoc semantics on a collection: apply f to the document with
the given id (document ids are unique in a Firestore collection). -/
def updBy {α : Type} (idOf : α → String) (i : String) (f : α → α) (l : List α) : List α :=
  l.map (fun x => if idOf x == i then f x else x)

/-- deleteDoc semantics on a collection. -/
def delBy {α : Type} (idOf : α → String) (i : String) (l : List α) : List α :=
  l.filter (fun x => !(idOf x == i))

/-- setDoc semantics: overwrite the document with the given id, or
append it if absent. -/
def setBy {α : Type} (idOf : α → String) (i : String) (x : α) : List α → List α
  | [] => [x]
  | y :: ys => if idOf y == i then x :: ys else y :: setBy idOf i x ys

/-! ## Store accessors -/

def findUser (s : Store) (i : String) : Option User := findBy User.id i s.users

def findTeam (s : Store) (i : String) : Option Team := findBy Team.id i s.teams

def findConv (s : Store) (i : String) : Option Conversation :=
  findBy Conversation.id i s.conversations

def findInv (s : Store) (i : String) : Option Invitation :=
  findBy Invitation.id i s.invitations

/-- updateDoc on the users collection: fails (fails the whole batch)
when the document does not exist. -/
def updateUserDoc (s : Store) (uid : String) (f : User → User) : Option Store :=
  match findUser s uid with
  | some _ => some { s with users := updBy User.id uid f s.users }
  | none => none

def deleteTeamDoc (s : Store) (i : String) : Store :=
  { s with teams := delBy Team.id i s.teams }

def deleteConvDoc (s : Store) (i : String) : Store :=
  { s with conversations := delBy Conversation.id i s.conversations }

def deleteUserDoc (s : Store) (i : String) : Store :=
  { s with users := delBy User.id i s.users }

def setTeamDoc (s : Store) (t : Team) : Store :=
  { s with teams := setBy Team.id t.id t s.teams }

def setConvDoc (s : Store) (c : Conversation) : Store :=
  { s with conversations := setBy Conversation.id c.id c s.conversations }

/-- Result of an operation: success with the new store, or a thrown
error message together with the store the operation leaves behind. -/
inductive OpResult where
  | ok (s : Store)
  | err (msg : String) (s : Store)
deriving Repr, DecidableEq

/-- The store an operation leaves behind regardless of outcome. -/
def OpResult.store : OpResult → Store
  | .ok s => s
  | .err _ s => s

def OpResult.isOk : OpResult → Bool
  | .ok _ => true
  | .err _ _ => false

/-! ## Operations (apiService.ts) -/

/-- The profile update written by leaveTeam (and by its missing-team
fallback). -/
def clearTeamFields (u : User) : User :=
  { u with teamId := none, isTeamOwner := some false,
           teamStatus := "Looking for a team" }

/-- The profile update written by createTeam for the owner. -/
def createProfileUpd (tid : String) (u : User) : User :=
  { u with teamId := some tid, isTeamOwner := some true, teamStatus := "In a team" }

/-- The team update of leaveTeam's member branch: remove the member and
recompute the aggregate skill/interest sets from the remaining members. -/
def leaveTeamUpd (uid : String) (t : Team) : Team :=
  let updatedMembers := t.members.filter (fun m => !(m.id == uid))
  { t with members := updatedMembers,
           skills := jsSetOfList (updatedMembers.flatMap (fun m => m.skills)),
           interests := jsSetOfList (updatedMembers.flatMap (fun m => m.interests)) }

/-- The conversation update removing a participant id (arrayRemove). -/
def convRemoveUpd (uid : String) (c : Conversation) : Conversation :=
  { c with participantIds := c.participantIds.filter (fun p => !(p == uid)) }

/-- The profile update written by handleInvitation on accept (note: it
does not touch isTeamOwner). -/
def joinProfileUpd (tid : String) (u : User) : User :=
  { u with teamId := some tid, teamStatus := "In a team" }

/-- The team update written by handleInvitation on accept: arrayUnion of
the joining user's snapshot, and the precomputed aggregate sets. -/
def joinTeamUpd (newSkills newInterests : List String) (userForTeam : User)
    (t : Team) : Team :=
  { t with members := arrayUnionMember t.members userForTeam,
           skills := newSkills, interests := newInterests }

/-- The conversation update written by handleInvitation on accept. -/
def joinConvUpd (user : User) (c : Conversation) : Conversation :=
  { c with participantIds := arrayUnionStr c.participantIds user.id,
           participants := mapInsert c.participants user.id
             { id := user.id, name := user.name, avatarInitial := user.avatarInitial } }

/-- The team update of deleteUserAccount's member branch: remove the
member only — the aggregate skill/interest sets are NOT recomputed. -/
def removeMemberOnlyUpd (uid : String) (t : Team) : Team :=
  { t with members := t.members.filter (fun m => !(m.id == uid)) }

/-- apiService.createTeam.  The randomly generated team document id is a
parameter.  The batch sets the team document, updates the owner profile
and sets the group conversation; it fails as a whole if the owner
profile document is missing. -/
def createTeam (teamName : String) (owner : User) (teamId : String) (s : Store) : OpResult :=
  let ownerAsMember : User := { owner with profileComplete := none }
  let newTeam : Team :=
    { id := teamId, name := teamName, ownerId := owner.id,
      members := [ownerAsMember], skills := owner.skills,
      interests := owner.interests }
  let conv : Conversation :=
    { id := "team_" ++ teamId, participantIds := [owner.id],
      participants := [(owner.id,
        { id := owner.id, name := owner.name, avatarInitial := owner.avatarInitial })],
      lastMessage := none, isGroupChat := true,
      groupName := some teamName, teamId := some teamId }
  match updateUserDoc s owner.id (createProfileUpd teamId) with
  | some s1 => .ok (setConvDoc (setTeamDoc s1 newTeam) conv)
  | none => .err "batch commit failed: missing user document" s

/-- apiService.leaveTeam. -/
def leaveTeam (user : User) (teamId : String) (s : Store) : OpResult :=
  match findTeam s teamId with
  | none =>
      match updateUserDoc s user.id clearTeamFields with
      | some s1 => .ok s1
      | none => .err "update failed: missing user document" s
  | some team =>
      if user.id = team.ownerId then
        if team.members.length > 1 then
          .err "You are the owner. Please transfer ownership or remove other members before leaving." s
        else
          match updateUserDoc s user.id clearTeamFields with
          | some s1 => .ok (deleteConvDoc (deleteTeamDoc s1 teamId) ("team_" ++ teamId))
          | none => .err "batch commit failed: missing user document" s
      else
        match updateUserDoc s user.id clearTeamFields,
              findConv s ("team_" ++ teamId) with
        | some _, some _ =>
            .ok { s with
              teams := updBy Team.id teamId (leaveTeamUpd user.id) s.teams,
              conversations := updBy Conversation.id ("team_" ++ teamId)
                (convRemoveUpd user.id) s.conversations,
              users := updBy User.id user.id clearTeamFields s.users }
        | _, _ => .err "batch commit failed: missing document" s

/-- The invitation document created by sendInvitation: it snapshots the
sender's id and name and the team's name at creation time. -/
def mkInvitation (team : Team) (fromUser toUser : User) (newId : String)
    (now : Nat) : Invitation :=
  { id := newId, teamId := team.id, teamName := team.name,
    fromUser := { id := fromUser.id, name := fromUser.name },
    toUserId := toUser.id, status := "pending", createdAt := now }

/-- apiService.sendInvitation.  The generated invitation document id and
the creation timestamp are parameters. -/
def sendInvitation (team : Team) (fromUser toUser : User) (newId : String)
    (now : Nat) (s : Store) : OpResult :=
  let existing := s.invitations.filter (fun i =>
    i.teamId == team.id && i.toUserId == toUser.id && i.status == "pending")
  if existing.isEmpty then
    .ok { s with invitations := s.invitations ++ [mkInvitation team fromUser toUser newId now] }
  else
    .err "An invitation to this user for this team already exists." s

/-- apiService.handleInvitation. -/
def handleInvitation (invitationId : String) (accepted : Bool) (user : User)
    (s : Store) : OpResult :=
  match findInv s invitationId with
  | none => .err "Invitation not found." s
  | some invitation =>
      if accepted then
        match findTeam s invitation.teamId with
        | none => .err "Team not found." s
        | some teamData =>
            let userForTeam : User := { user with profileComplete := none }
            let newSkills := jsSetOfList (teamData.skills ++ user.skills)
            let newInterests := jsSetOfList (teamData.interests ++ user.interests)
            match findUser s user.id, findConv s ("team_" ++ invitation.teamId) with
            | some _, some _ =>
                .ok { s with
                  users := updBy User.id user.id (joinProfileUpd invitation.teamId) s.users,
                  teams := updBy Team.id invitation.teamId
                    (joinTeamUpd newSkills newInterests userForTeam) s.teams,
                  conversations := updBy Conversation.id ("team_" ++ invitation.teamId)
                    (joinConvUpd user) s.conversations,
                  invitations := s.invitations.filter (fun i => !(i.id == invitationId)) }
            | _, _ => .err "batch commit failed: missing document" s
      else
        .ok { s with invitations :=
          s.invitations.filter (fun i => !(i.id == invitationId)) }

/-- apiService.deleteUserAccount.  The team / conversation phase runs as
sequential writes (not a batch); the final step deletes the profile
document. -/
def deleteUserAccount (user : User) (s : Store) : OpResult :=
  match user.teamId with
  | none => .ok (deleteUserDoc s user.id)
  | some tid =>
      match findTeam s tid with
      | none => .ok (deleteUserDoc s user.id)
      | some team =>
          if jsTruthy user.isTeamOwner then
            if team.members.length > 1 then
              .err "You are the owner of a team with other members. Please transfer ownership or remove all members before deleting your account." s
            else
              .ok (deleteUserDoc
                (deleteConvDoc (deleteTeamDoc s tid) ("team_" ++ tid)) user.id)
          else
            let s1 : Store :=
              { s with teams := updBy Team.id tid (removeMemberOnlyUpd user.id) s.teams }
            match findConv s1 ("team_" ++ tid) with
            | none => .err "update failed: missing conversation document" s1
            | some _ =>
                let s2 : Store := { s1 with
                  conversations := updBy Conversation.id ("team_" ++ tid)
                    (convRemoveUpd user.id) s1.conversations }
                .ok (deleteUserDoc s2 user.id)

/-! ## Recommendation scorer (getRecommendedTeams) -/

/-- A team annotated with its score and matched tag lists, as returned
by getRecommendedTeams (the TypeScript spread of the team record plus
score, commonSkills, commonInterests). -/
structure ScoredTeam where
  toTeam : Team
  score : Nat
  commonSkills : List String
  commonInterests : List String
deriving Repr, DecidableEq

/-- The matched tags: the user tag set (first-occurrence order)
restricted to the team tags. -/
def commonOf (userTags teamTags : List String) : List String :=
  (jsSetOfList userTags).filter (fun x => teamTags.contains x)

/-- The per-team scoring step of getRecommendedTeams. -/
def scoreTeam (u : User) (t : Team) : ScoredTeam :=
  let cs := commonOf u.skills t.skills
  let ci := commonOf u.interests t.interests
  { toTeam := t, score := 2 * cs.length + ci.length,
    commonSkills := cs, commonInterests := ci }

/-- Stable descending insertion by score: the element is placed after
every already-placed element of greater-or-equal score. -/
def insertDesc (x : ScoredTeam) : List ScoredTeam → List ScoredTeam
  | [] => [x]
  | y :: ys => if y.score < x.score then x :: y :: ys else y :: insertDesc x ys

/-- The stable descending sort performed by
`.sort((a, b) => b.score - a.score)`. -/
def sortByScoreDesc (l : List ScoredTeam) : List ScoredTeam :=
  l.foldl (fun acc x => insertDesc x acc) []

/-- The pre-sort pipeline of getRecommendedTeams: the ownerId inequality
query, the membership filter, the scoring map and the positive-score
filter, in input order. -/
def recommendPool (currentUser : User) (teams : List Team) : List ScoredTeam :=
  ((((teams.filter (fun t => !(t.ownerId == currentUser.id))).filter
      (fun t => !(t.members.any (fun m => m.id == currentUser.id)))).map
      (scoreTeam currentUser)).filter (fun r => decide (0 < r.score)))

/-- apiService.getRecommendedTeams as a pure function of the current
user and the stored teams. -/
def getRecommendedTeams (currentUser : User) (teams : List Team) : List ScoredTeam :=
  sortByScoreDesc (recommendPool currentUser teams)

/-! ## Profile search (searchUsers) -/

/-- The optional filters accepted by searchUsers. -/
structure SearchFilters where
  name : Option String
  skill : Option String
  interest : Option String
  availability : Option String
deriving Repr, DecidableEq

/-- Whether the first list is a leading segment of the second. -/
def leadMatch : List Char → List Char → Bool
  | [], _ => true
  | _ :: _, [] => false
  | a :: as, b :: bs => a == b && leadMatch as bs

/-- Whether the first list occurs as a contiguous segment of the second. -/
def segMatch (needle : List Char) : List Char → Bool
  | [] => needle.isEmpty
  | b :: bs => leadMatch needle (b :: bs) || segMatch needle bs

/-- JavaScript a.includes(b) on strings. -/
def jsIncludes (a b : String) : Bool := segMatch b.toList a.toList

/-- The skills array-contains clause (pushed only for a truthy filter
value other than the sentinel). -/
def skillClause (fs : SearchFilters) (u : User) : Bool :=
  match fs.skill with
  | some sk => if sk == "" || sk == "Any Skill" then true else u.skills.contains sk
  | none => true

/-- The interests array-contains clause. -/
def interestClause (fs : SearchFilters) (u : User) : Bool :=
  match fs.interest with
  | some it => if it == "" || it == "Any Interest" then true else u.interests.contains it
  | none => true

/-- The teamStatus equality clause derived from the availability filter. -/
def availabilityClause (fs : SearchFilters) (u : User) : Bool :=
  match fs.availability with
  | some av =>
      if av == "" || av == "Any" then true
      else
        let status := if av == "Available" then "Looking for a team" else "In a team"
        u.teamStatus == status
  | none => true

/-- apiService.searchUsers: the store query (id inequality plus the
pushed clauses) followed by the client-side case-insensitive name
substring filter. -/
def searchUsers (currentUserId : String) (fs : SearchFilters) (s : Store) : List User :=
  let fromQuery := s.users.filter (fun u =>
    !(u.id == currentUserId) && skillClause fs u && interestClause fs u
      && availabilityClause fs u)
  match fs.name with
  | some n =>
      if n == "" then fromQuery
      else fromQuery.filter (fun u => jsIncludes u.name.toLower n.toLower)
  | none => fromQuery

/-! ## Invariants -/

/-- The aggregate invariant of the spec: a team's skills and interests
fields are (as sets) the unions of its members' skills and interests. -/
def teamAggInv (t : Team) : Prop :=
  (∀ x, x ∈ t.skills ↔ ∃ m ∈ t.members, x ∈ m.skills) ∧
  (∀ x, x ∈ t.interests ↔ ∃ m ∈ t.members, x ∈ m.interests)

/-- The owner invariant: the owner id is the id of some member. -/
def ownerInv (t : Team) : Prop := ∃ m ∈ t.members, m.id = t.ownerId

/-- At most one pending invitation per (teamId, toUserId) pair. -/
def atMostOnePending (s : Store) : Prop :=
  ∀ tid uid, s.invitations.countP (fun i =>
    i.teamId == tid && i.toUserId == uid && i.status == "pending") ≤ 1

/-! ## Basic lemmas about the store primitives -/

theorem clearTeamFields_id (u : User) : (clearTeamFields u).id = u.id := rfl

theorem findBy_delBy {α : Type} (idOf : α → String) (i : String) (l : List α) :
    findBy idOf i (delBy idOf i l) = none := by
  simp only [findBy, delBy, List.find?_eq_none, List.mem_filter]
  intro x hx
  exact fun hb => by simp [hb] at hx

theorem findBy_updBy {α : Type} (idOf : α → String) (i : String) (f : α → α)
    (h : ∀ x, idOf (f x) = idOf x) (l : List α) :
    findBy idOf i (updBy idOf i f l) = (findBy idOf i l).map f := by
  induction l with
  | nil => rfl
  | cons x xs ih =>
    simp only [findBy, updBy, List.map_cons, List.find?_cons] at ih ⊢
    by_cases hx : idOf x = i
    · have h2 : (idOf x == i) = true := by simp [hx]
      have hif : (if (idOf x == i) = true then f x else x) = f x := if_pos h2
      have h1 : (idOf (f x) == i) = true := by simp [h, hx]
      rw [hif, h1, h2]
      rfl
    · have h2 : (idOf x == i) = false := by simp [hx]
      have hif : (if (idOf x == i) = true then f x else x) = x := if_neg (by simp [h2])
      rw [hif, h2]
      exact ih

theorem findBy_setBy {α : Type} (idOf : α → String) (i : String) (x : α)
    (h : idOf x = i) (l : List α) :
    findBy idOf i (setBy idOf i x l) = some x := by
  induction l with
  | nil => simp [findBy, setBy, List.find?_cons, h]
  | cons y ys ih =>
    by_cases hy : idOf y = i
    · simp [findBy, setBy, List.find?_cons, h, hy]
    · have hy' : (idOf y == i) = false := by simp [hy]
      simp only [findBy, setBy] at ih ⊢
      simp [List.find?_cons, hy', ih]

theorem findBy_upd_clearTeamFields (i : String) (l : List User) :
    findBy User.id i (updBy User.id i clearTeamFields l) =
      (findBy User.id i l).map clearTeamFields :=
  findBy_updBy User.id i clearTeamFields (fun _ => rfl) l

theorem findBy_upd_createProfile (i tid : String) (l : List User) :
    findBy User.id i (updBy User.id i (createProfileUpd tid) l) =
      (findBy User.id i l).map (createProfileUpd tid) :=
  findBy_updBy User.id i (createProfileUpd tid) (fun _ => rfl) l

theorem findBy_upd_joinProfile (i tid : String) (l : List User) :
    findBy User.id i (updBy User.id i (joinProfileUpd tid) l) =
      (findBy User.id i l).map (joinProfileUpd tid) :=
  findBy_updBy User.id i (joinProfileUpd tid) (fun _ => rfl) l

theorem findBy_upd_leaveTeam (i uid : String) (l : List Team) :
    findBy Team.id i (updBy Team.id i (leaveTeamUpd uid) l) =
      (findBy Team.id i l).map (leaveTeamUpd uid) :=
  findBy_updBy Team.id i (leaveTeamUpd uid) (fun _ => rfl) l

theorem findBy_upd_removeMemberOnly (i uid : String) (l : List Team) :
    findBy Team.id i (updBy Team.id i (removeMemberOnlyUpd uid) l) =
      (findBy Team.id i l).map (removeMemberOnlyUpd uid) :=
  findBy_updBy Team.id i (removeMemberOnlyUpd uid) (fun _ => rfl) l

theorem findBy_upd_joinTeam (i : String) (ns ni : List String) (uf : User)
    (l : List Team) :
    findBy Team.id i (updBy Team.id i (joinTeamUpd ns ni uf) l) =
      (findBy Team.id i l).map (joinTeamUpd ns ni uf) :=
  findBy_updBy Team.id i (joinTeamUpd ns ni uf) (fun _ => rfl) l

theorem findBy_upd_joinConv (i : String) (u : User) (l : List Conversation) :
    findBy Conversation.id i (updBy Conversation.id i (joinConvUpd u) l) =
      (findBy Conversation.id i l).map (joinConvUpd u) :=
  findBy_updBy Conversation.id i (joinConvUpd u) (fun _ => rfl) l

theorem findBy_upd_convRemove (i uid : String) (l : List Conversation) :
    findBy Conversation.id i (updBy Conversation.id i (convRemoveUpd uid) l) =
      (findBy Conversation.id i l).map (convRemoveUpd uid) :=
  findBy_updBy Conversation.id i (convRemoveUpd uid) (fun _ => rfl) l

theorem mem_jsSetAux (l acc : List String) (x : String) :
    x ∈ jsSetAux acc l ↔ x ∈ acc ∨ x ∈ l := by
  induction l generalizing acc with
  | nil => simp [jsSetAux]
  | cons y ys ih =>
    by_cases hy : y ∈ acc
    · rw [jsSetAux, if_pos hy, ih]
      simp only [List.mem_cons]
      constructor
      · rintro (h | h)
        · exact Or.inl h
        · exact Or.inr (Or.inr h)
      · rintro (h | h | h)
        · exact Or.inl h
        · exact Or.inl (h ▸ hy)
        · exact Or.inr h
    · rw [jsSetAux, if_neg hy, ih]
      simp only [List.mem_append, List.mem_cons, List.mem_singleton,
        List.not_mem_nil, or_false]
      tauto

theorem mem_jsSetOfList (l : List String) (x : String) :
    x ∈ jsSetOfList l ↔ x ∈ l := by
  simp [jsSetOfList, mem_jsSetAux]

theorem mem_arrayUnionMember (l : List User) (x y : User) :
    y ∈ arrayUnionMember l x ↔ y ∈ l ∨ y = x := by
  by_cases hx : x ∈ l
  · simp only [arrayUnionMember, if_pos hx]
    exact ⟨Or.inl, fun h => h.elim id (fun he => he ▸ hx)⟩
  · simp [arrayUnionMember, if_neg hx]

theorem length_arrayUnionMember (l : List User) (x : User) (hx : x ∉ l) :
    (arrayUnionMember l x).length = l.length + 1 := by
  simp [arrayUnionMember, hx]

theorem length_arrayUnionStr (l : List String) (x : String) (hx : x ∉ l) :
    (arrayUnionStr l x).length = l.length + 1 := by
  simp [arrayUnionStr, hx]

/-! ## Sample records used by the witnesses and counterexamples -/

def pO : ConversationParticipant := { id := "o", name := "Olivia", avatarInitial := "O" }

def pA : ConversationParticipant := { id := "a", name := "Ada", avatarInitial := "A" }

/-- The owner of the sample team. -/
def uOwner : User :=
  { id := "o", name := "Olivia", avatarInitial := "O", title := "", year := 4,
    about := "", email := "", department := "", interests := ["ai"], skills := ["y"],
    workingPreferences := [], teamStatus := "In a team", profileComplete := some true,
    teamId := some "t1", isTeamOwner := some true }

/-- A regular member of the sample team; her only skill "x" is shared
with no other member. -/
def uA : User :=
  { id := "a", name := "Ada", avatarInitial := "A", title := "", year := 3,
    about := "", email := "", department := "", interests := ["ml"], skills := ["x"],
    workingPreferences := [], teamStatus := "In a team", profileComplete := some true,
    teamId := some "t1", isTeamOwner := some false }

def mOwner : User := { uOwner with profileComplete := none }

def mA : User := { uA with profileComplete := none }

/-- The sample team with two members. -/
def tTeam : Team :=
  { id := "t1", name := "Alpha", ownerId := "o", members := [mOwner, mA],
    skills := ["y", "x"], interests := ["ai", "ml"] }

def convT : Conversation :=
  { id := "team_t1", participantIds := ["o", "a"], participants := [("o", pO), ("a", pA)],
    lastMessage := none, isGroupChat := true, groupName := some "Alpha",
    teamId := some "t1" }

/-- A two-member store: owner "o" and member "a" in team "t1". -/
def s0 : Store :=
  { users := [uOwner, uA], teams := [tTeam], invitations := [], conversations := [convT] }

/-! ## C4: leaveTeam by an owner of a larger team fails unchanged -/

/-- C4 (confirmed): for every user who is the owner of a team whose
member collection has more than one entry, leaveTeam fails with the
owner-must-transfer error, and the error carries the unchanged store
(the throw happens before any batched write is committed). -/
theorem leaveTeam_owner_with_members_fails (user : User) (tid : String) (s : Store)
    (team : Team) (hteam : findTeam s tid = some team)
    (howner : user.id = team.ownerId) (hsize : team.members.length > 1) :
    leaveTeam user tid s =
      .err "You are the owner. Please transfer ownership or remove other members before leaving." s := by
  unfold leaveTeam
  rw [hteam]
  simp [howner, hsize]

/-- C4 witness: the sample owner of the two-member team "t1" fails to
leave and the store is unchanged. -/
theorem leaveTeam_owner_with_members_fails_witness :
    leaveTeam uOwner "t1" s0 =
      .err "You are the owner. Please transfer ownership or remove other members before leaving." s0 :=
  leaveTeam_owner_with_members_fails uOwner "t1" s0 tTeam (by decide) (by decide)
    (by decide)

/-! ## C5: leaveTeam by the sole owner -/

/-- C5 (confirmed): for every user who is the owner of an existing team
whose member collection has exactly one entry, leaveTeam deletes the
team record and the team conversation record and resets the user's
profile team fields (teamId cleared, isTeamOwner false, teamStatus
back to looking for a team). -/
theorem leaveTeam_sole_owner (user : User) (tid : String) (s : Store)
    (team : Team) (u0 : User)
    (hteam : findTeam s tid = some team)
    (howner : user.id = team.ownerId)
    (hsize : team.members.length = 1)
    (huser : findUser s user.id = some u0) :
    ∃ s1, leaveTeam user tid s = .ok s1 ∧
      findTeam s1 tid = none ∧
      findConv s1 ("team_" ++ tid) = none ∧
      findUser s1 user.id = some (clearTeamFields u0) := by
  have hnot : ¬ team.members.length > 1 := by omega
  simp only [leaveTeam, hteam]
  rw [if_pos howner, if_neg hnot]
  simp only [updateUserDoc, huser]
  refine ⟨_, rfl, ?_, ?_, ?_⟩
  · simp [findTeam, deleteConvDoc, deleteTeamDoc, findBy_delBy]
  · simp [findConv, deleteConvDoc, deleteTeamDoc, findBy_delBy]
  · simp only [findUser, deleteConvDoc, deleteTeamDoc]
    rw [findBy_updBy User.id user.id clearTeamFields clearTeamFields_id]
    rw [show findBy User.id user.id s.users = some u0 from huser]
    rfl

/-- The sole owner of the one-member team "t2". -/
def uSolo : User :=
  { id := "q", name := "Quinn", avatarInitial := "Q", title := "", year := 2,
    about := "", email := "", department := "", interests := ["web"], skills := ["js"],
    workingPreferences := [], teamStatus := "In a team", profileComplete := some true,
    teamId := some "t2", isTeamOwner := some true }

def tSolo : Team :=
  { id := "t2", name := "Solo", ownerId := "q",
    members := [{ uSolo with profileComplete := none }],
    skills := ["js"], interests := ["web"] }

def convSolo : Conversation :=
  { id := "team_t2", participantIds := ["q"],
    participants := [("q", { id := "q", name := "Quinn", avatarInitial := "Q" })],
    lastMessage := none, isGroupChat := true, groupName := some "Solo",
    teamId := some "t2" }

/-- A one-member-team store for the sole-owner scenarios. -/
def sSolo : Store :=
  { users := [uSolo], teams := [tSolo], invitations := [], conversations := [convSolo] }

/-- C5 witness: the sole owner of the one-member team "t2" leaves;
team and conversation are gone and her profile is reset. -/
theorem leaveTeam_sole_owner_witness :
    ∃ s1, leaveTeam uSolo "t2" sSolo = .ok s1 ∧
      findTeam s1 "t2" = none ∧
      findConv s1 ("team_" ++ "t2") = none ∧
      findUser s1 uSolo.id = some (clearTeamFields uSolo) :=
  leaveTeam_sole_owner uSolo "t2" sSolo tSolo uSolo (by decide) (by decide)
    (by decide) (by decide)

/-! ## C2: resolving an invitation -/

/-- C2 (amended): handleInvitation deletes the invitation record
whenever it completes successfully (accept or decline); when it fails —
in particular when accepting and the referenced team no longer exists —
it changes nothing, so the invitation is retained. -/
theorem handleInvitation_deletes_on_success (invitationId : String) (accepted : Bool)
    (user : User) (s : Store) :
    (∀ s1, handleInvitation invitationId accepted user s = .ok s1 →
      findInv s1 invitationId = none) ∧
    (∀ msg s1, handleInvitation invitationId accepted user s = .err msg s1 → s1 = s) := by
  constructor
  · intro s1 hok
    unfold handleInvitation at hok
    split at hok
    · cases hok
    · split at hok
      · split at hok
        · cases hok
        · split at hok
          · cases hok
            exact findBy_delBy Invitation.id invitationId s.invitations
          · cases hok
      · cases hok
        exact findBy_delBy Invitation.id invitationId s.invitations
  · intro msg s1 herr
    unfold handleInvitation at herr
    split at herr
    · cases herr; rfl
    · split at herr
      · split at herr
        · cases herr; rfl
        · split at herr
          · cases herr
          · cases herr; rfl
      · cases herr

/-- An invitation whose team has been deleted. -/
def invGhost : Invitation :=
  { id := "i2", teamId := "ghost", teamName := "Ghost",
    fromUser := { id := "o", name := "Olivia" }, toUserId := "a",
    status := "pending", createdAt := 0 }

/-- The two-member store together with a pending invitation whose team
does not exist. -/
def sGhost : Store := { s0 with invitations := [invGhost] }

/-- C2 counterexample: accepting an invitation whose team no longer
exists fails with "Team not found." before the batched delete, so the
invitation is NOT removed — refuting "resolving an invitation always
removes it from the store". -/
theorem handleInvitation_retains_invitation_on_missing_team :
    handleInvitation "i2" true uA sGhost = .err "Team not found." sGhost ∧
    findInv ((handleInvitation "i2" true uA sGhost).store) "i2" = some invGhost := by
  decide

/-! ## C6: effect of accepting / declining an invitation -/

/-- C6 (amended): for a pending invitation to an existing team, resolved
by a user who is not already in the team's member snapshot list nor in
the conversation's participant list (the normal case): accepting adds
exactly one member to the team, removes exactly one invitation, and adds
exactly one participant to the team conversation; declining removes the
invitation and changes no other record. -/
theorem handleInvitation_accept_decline_effect (invitationId : String) (user : User)
    (s : Store) (invitation : Invitation) (team : Team) (conv : Conversation) (u0 : User)
    (hinv : findInv s invitationId = some invitation)
    (hcount : s.invitations.countP (fun i => i.id == invitationId) = 1)
    (hteam : findTeam s invitation.teamId = some team)
    (huser : findUser s user.id = some u0)
    (hconv : findConv s ("team_" ++ invitation.teamId) = some conv)
    (hnotmem : ({ user with profileComplete := none } : User) ∉ team.members)
    (hnotpart : user.id ∉ conv.participantIds) :
    (∃ s1, handleInvitation invitationId true user s = .ok s1 ∧
      (∃ t1, findTeam s1 invitation.teamId = some t1 ∧
        t1.members.length = team.members.length + 1 ∧
        ({ user with profileComplete := none } : User) ∈ t1.members) ∧
      s1.invitations.length + 1 = s.invitations.length ∧
      (∃ c1, findConv s1 ("team_" ++ invitation.teamId) = some c1 ∧
        c1.participantIds.length = conv.participantIds.length + 1 ∧
        user.id ∈ c1.participantIds)) ∧
    handleInvitation invitationId false user s =
      .ok { s with invitations := s.invitations.filter (fun i => !(i.id == invitationId)) } := by
  have hlen : (s.invitations.filter (fun i => !(i.id == invitationId))).length + 1 =
      s.invitations.length := by
    have h1 := List.length_eq_countP_add_countP (fun i => i.id == invitationId) s.invitations
    have h2 : s.invitations.countP (fun a => decide ¬((fun i => i.id == invitationId) a) = true) =
        (s.invitations.filter (fun i => !(i.id == invitationId))).length := by
      rw [← List.countP_eq_length_filter]
      congr 1
      funext a
      simp [Bool.beq_eq_decide_eq]
    rw [hcount, h2] at h1
    omega
  constructor
  · simp only [handleInvitation, hinv, hteam, huser, hconv]
    rw [if_pos trivial]
    refine ⟨_, rfl,
      ⟨{ team with
          members := arrayUnionMember team.members { user with profileComplete := none },
          skills := jsSetOfList (team.skills ++ user.skills),
          interests := jsSetOfList (team.interests ++ user.interests) }, ?_, ?_, ?_⟩,
      hlen,
      ⟨{ conv with
          participantIds := arrayUnionStr conv.participantIds user.id,
          participants := mapInsert conv.participants user.id
            { id := user.id, name := user.name, avatarInitial := user.avatarInitial } },
        ?_, ?_, ?_⟩⟩
    · show findBy Team.id invitation.teamId
        (updBy Team.id invitation.teamId (joinTeamUpd _ _ _) s.teams) = some _
      rw [findBy_upd_joinTeam]
      rw [show findBy Team.id invitation.teamId s.teams = some team from hteam]
      rfl
    · exact length_arrayUnionMember team.members _ hnotmem
    · show _ ∈ arrayUnionMember team.members _
      rw [mem_arrayUnionMember]
      exact Or.inr rfl
    · show findBy Conversation.id ("team_" ++ invitation.teamId)
        (updBy Conversation.id ("team_" ++ invitation.teamId) (joinConvUpd _) s.conversations) =
        some _
      rw [findBy_upd_joinConv]
      rw [show findBy Conversation.id ("team_" ++ invitation.teamId) s.conversations =
        some conv from hconv]
      rfl
    · exact length_arrayUnionStr conv.participantIds user.id hnotpart
    · show user.id ∈ arrayUnionStr conv.participantIds user.id
      simp [arrayUnionStr, hnotpart]
  · simp only [handleInvitation, hinv]
    rfl

/-- A user with no team, invited to the one-member team "t2". -/
def uB : User :=
  { id := "b", name := "Bo", avatarInitial := "B", title := "", year := 1,
    about := "", email := "", department := "", interests := ["web"], skills := ["css"],
    workingPreferences := [], teamStatus := "Looking for a team",
    profileComplete := some true, teamId := none, isTeamOwner := none }

def invB : Invitation :=
  { id := "i3", teamId := "t2", teamName := "Solo",
    fromUser := { id := "q", name := "Quinn" }, toUserId := "b",
    status := "pending", createdAt := 1 }

/-- The one-member-team store with a pending invitation to "b". -/
def sInvite : Store :=
  { users := [uSolo, uB], teams := [tSolo], invitations := [invB],
    conversations := [convSolo] }

/-- C6 witness: accepting the invitation of "b" to the one-member team
adds one member, removes one invitation, adds one participant; declining
removes only the invitation. -/
theorem handleInvitation_accept_decline_effect_witness :
    (∃ s1, handleInvitation "i3" true uB sInvite = .ok s1 ∧
      (∃ t1, findTeam s1 invB.teamId = some t1 ∧
        t1.members.length = tSolo.members.length + 1 ∧
        ({ uB with profileComplete := none } : User) ∈ t1.members) ∧
      s1.invitations.length + 1 = sInvite.invitations.length ∧
      (∃ c1, findConv s1 ("team_" ++ invB.teamId) = some c1 ∧
        c1.participantIds.length = convSolo.participantIds.length + 1 ∧
        uB.id ∈ c1.participantIds)) ∧
    handleInvitation "i3" false uB sInvite =
      .ok { sInvite with invitations :=
        sInvite.invitations.filter (fun i => !(i.id == "i3")) } :=
  handleInvitation_accept_decline_effect "i3" uB sInvite invB tSolo convSolo uB
    (by decide) (by decide) (by decide) (by decide) (by decide) (by decide) (by decide)

/-- A pending invitation to "a", who is already a member of team "t1"
and a participant of its conversation. -/
def invDup : Invitation :=
  { id := "i4", teamId := "t1", teamName := "Alpha",
    fromUser := { id := "o", name := "Olivia" }, toUserId := "a",
    status := "pending", createdAt := 2 }

def sDup : Store := { s0 with invitations := [invDup] }

/-- C6 counterexample: "i4" is a pending invitation to the existing team
"t1", yet accepting it succeeds while adding no member (2 members before
and after) and no conversation participant (2 before and after), because
arrayUnion is a no-op for an element already present — refuting "adds
exactly one member ... and adds exactly one participant" as universally
stated. -/
theorem handleInvitation_accept_adds_nothing_for_existing_member :
    (handleInvitation "i4" true uA sDup).isOk = true ∧
    findInv sDup "i4" = some invDup ∧
    findTeam sDup invDup.teamId = some tTeam ∧
    (findTeam (handleInvitation "i4" true uA sDup).store "t1").map
      (fun t => t.members.length) = some 2 ∧
    tTeam.members.length = 2 ∧
    (findConv (handleInvitation "i4" true uA sDup).store "team_t1").map
      (fun c => c.participantIds.length) = some 2 ∧
    convT.participantIds.length = 2 := by
  decide

/-! ## Projection lemmas for store updates -/

theorem findTeam_setConvDoc (s : Store) (c : Conversation) (i : String) :
    findTeam (setConvDoc s c) i = findTeam s i := rfl

theorem findTeam_deleteConvDoc (s : Store) (j i : String) :
    findTeam (deleteConvDoc s j) i = findTeam s i := rfl

theorem findTeam_deleteUserDoc (s : Store) (j i : String) :
    findTeam (deleteUserDoc s j) i = findTeam s i := rfl

theorem findTeam_deleteTeamDoc_self (s : Store) (i : String) :
    findTeam (deleteTeamDoc s i) i = none := findBy_delBy Team.id i s.teams

theorem findTeam_setTeamDoc_self (s : Store) (t : Team) :
    findTeam (setTeamDoc s t) t.id = some t := findBy_setBy Team.id t.id t rfl s.teams

theorem findConv_deleteConvDoc_self (s : Store) (i : String) :
    findConv (deleteConvDoc s i) i = none := findBy_delBy Conversation.id i s.conversations

/-! ## C1: the aggregate skills/interests invariant -/

/-- C1 (amended): after createTeam the new team satisfies the aggregate
invariant; after leaveTeam the affected team (when still present)
satisfies it; handleInvitation with accept preserves it on the joined
team.  (The membership-removal branch of deleteUserAccount is excluded:
it does not recompute the aggregates — see the counterexample.) -/
theorem team_aggregates_after_ops (s : Store) :
    (∀ teamName owner tid s1, createTeam teamName owner tid s = .ok s1 →
      ∀ t1, findTeam s1 tid = some t1 → teamAggInv t1) ∧
    (∀ user tid s1, leaveTeam user tid s = .ok s1 →
      ∀ t1, findTeam s1 tid = some t1 → teamAggInv t1) ∧
    (∀ invitationId user s1 invitation team, findInv s invitationId = some invitation →
      findTeam s invitation.teamId = some team → teamAggInv team →
      handleInvitation invitationId true user s = .ok s1 →
      ∀ t1, findTeam s1 invitation.teamId = some t1 → teamAggInv t1) := by
  refine ⟨?_, ?_, ?_⟩
  · intro teamName owner tid s1 hok t1 hfind
    unfold createTeam at hok
    split at hok
    · cases hok
      rw [findTeam_setConvDoc, findTeam_setTeamDoc_self] at hfind
      cases hfind
      constructor <;> intro x <;> simp
    · cases hok
  · intro user tid s1 hok t1 hfind
    unfold leaveTeam at hok
    split at hok
    · split at hok
      next s1' heq =>
        cases hok
        unfold updateUserDoc at heq
        split at heq
        · cases heq
          have hfind' : findTeam s tid = some t1 := hfind
          rw [show findTeam s tid = none by assumption] at hfind'
          cases hfind'
        · cases heq
      next heq => cases hok
    next team hteam =>
      split at hok
      · split at hok
        · cases hok
        · split at hok
          · cases hok
            rw [findTeam_deleteConvDoc, findTeam_deleteTeamDoc_self] at hfind
            cases hfind
          · cases hok
      · split at hok
        · cases hok
          simp only [findTeam] at hfind
          rw [findBy_upd_leaveTeam,
            show findBy Team.id tid s.teams = some team from hteam] at hfind
          cases hfind
          constructor <;> intro x <;>
            simp [leaveTeamUpd, mem_jsSetOfList, List.mem_flatMap]
        · cases hok
  · intro invitationId user s1 invitation team hinv hteam hAgg hok t1 hfind
    obtain ⟨hs, hi⟩ := hAgg
    unfold handleInvitation at hok
    split at hok
    · cases hok
    next invitation' hinv' =>
      rw [hinv] at hinv'
      cases hinv'
      rw [if_pos rfl] at hok
      split at hok
      · cases hok
      next team' hteam' =>
        rw [hteam] at hteam'
        cases hteam'
        split at hok
        · cases hok
          simp only [findTeam] at hfind
          rw [findBy_upd_joinTeam,
            show findBy Team.id invitation.teamId s.teams = some team from hteam] at hfind
          cases hfind
          constructor
          · intro x
            simp only [joinTeamUpd, mem_jsSetOfList, List.mem_append, mem_arrayUnionMember]
            rw [hs x]
            constructor
            · rintro (⟨m, hm, hx⟩ | hx)
              · exact ⟨m, Or.inl hm, hx⟩
              · exact ⟨_, Or.inr rfl, hx⟩
            · rintro ⟨m, hm | rfl, hx⟩
              · exact Or.inl ⟨m, hm, hx⟩
              · exact Or.inr hx
          · intro x
            simp only [joinTeamUpd, mem_jsSetOfList, List.mem_append, mem_arrayUnionMember]
            rw [hi x]
            constructor
            · rintro (⟨m, hm, hx⟩ | hx)
              · exact ⟨m, Or.inl hm, hx⟩
              · exact ⟨_, Or.inr rfl, hx⟩
            · rintro ⟨m, hm | rfl, hx⟩
              · exact Or.inl ⟨m, hm, hx⟩
              · exact Or.inr hx
        · cases hok

/-- The store after the departing member "a" leaves team "t1" through
leaveTeam. -/
def sAfterLeave : Store := (leaveTeam uA "t1" s0).store

def tAfterLeave : Team := (findTeam sAfterLeave "t1").getD tTeam

/-- C1 witness: the team left behind by leaveTeam in the two-member
store satisfies the aggregate invariant. -/
theorem team_aggregates_after_ops_witness : teamAggInv tAfterLeave :=
  (team_aggregates_after_ops s0).2.1 uA "t1" sAfterLeave (by decide) tAfterLeave
    (by decide)

/-- The store after member "a" (whose only skill "x" is shared with
nobody) deletes her account. -/
def sAfterDelete : Store := (deleteUserAccount uA s0).store

def tAfterDelete : Team := (findTeam sAfterDelete "t1").getD tTeam

/-- C1 counterexample: after the membership-removal branch of
deleteUserAccount, the team still lists skill "x" although no remaining
member has it — the skills field is not the union of the members'
skills, refuting the claim for that operation. -/
theorem deleteUserAccount_breaks_aggregate :
    (deleteUserAccount uA s0).isOk = true ∧
    findTeam sAfterDelete "t1" = some tAfterDelete ∧
    "x" ∈ tAfterDelete.skills ∧
    ∀ m ∈ tAfterDelete.members, "x" ∉ m.skills := by
  decide

/-! ## C8: the owner-in-members invariant -/

/-- C8 (amended): the owner invariant (ownerId is the id of some member)
is established by createTeam and preserved by leaveTeam and
handleInvitation; deleteUserAccount preserves it PROVIDED the deleting
user's isTeamOwner flag is set whenever the user actually owns the team
(the operation branches on the profile flag, not on the team's ownerId —
see the counterexample for the inconsistent-flag case). -/
theorem owner_in_members_after_ops (s : Store) :
    (∀ teamName owner tid s1, createTeam teamName owner tid s = .ok s1 →
      ∀ t1, findTeam s1 tid = some t1 → ownerInv t1) ∧
    (∀ user tid s1 team, findTeam s tid = some team → ownerInv team →
      leaveTeam user tid s = .ok s1 →
      ∀ t1, findTeam s1 tid = some t1 → ownerInv t1) ∧
    (∀ invitationId accepted user s1 invitation team,
      findInv s invitationId = some invitation →
      findTeam s invitation.teamId = some team → ownerInv team →
      handleInvitation invitationId accepted user s = .ok s1 →
      ∀ t1, findTeam s1 invitation.teamId = some t1 → ownerInv t1) ∧
    (∀ user tid s1 team, user.teamId = some tid →
      findTeam s tid = some team → ownerInv team →
      (user.id = team.ownerId → jsTruthy user.isTeamOwner = true) →
      deleteUserAccount user s = .ok s1 →
      ∀ t1, findTeam s1 tid = some t1 → ownerInv t1) := by
  refine ⟨?_, ?_, ?_, ?_⟩
  · intro teamName owner tid s1 hok t1 hfind
    unfold createTeam at hok
    split at hok
    · cases hok
      rw [findTeam_setConvDoc, findTeam_setTeamDoc_self] at hfind
      cases hfind
      exact ⟨_, List.mem_singleton.mpr rfl, rfl⟩
    · cases hok
  · intro user tid s1 team hteam hOwner hok t1 hfind
    unfold leaveTeam at hok
    split at hok
    next heq => rw [hteam] at heq; cases heq
    next team' hteam' =>
      rw [hteam] at hteam'
      cases hteam'
      split at hok
      · split at hok
        · cases hok
        · split at hok
          · cases hok
            rw [findTeam_deleteConvDoc, findTeam_deleteTeamDoc_self] at hfind
            cases hfind
          · cases hok
      next hne =>
        split at hok
        · cases hok
          have hfind' : findBy Team.id tid
              (updBy Team.id tid (leaveTeamUpd user.id) s.teams) = some t1 := hfind
          rw [findBy_upd_leaveTeam,
            show findBy Team.id tid s.teams = some team from hteam] at hfind'
          cases hfind'
          obtain ⟨m, hm, hmid⟩ := hOwner
          refine ⟨m, ?_, hmid⟩
          simp only [leaveTeamUpd, List.mem_filter]
          refine ⟨hm, ?_⟩
          simp only [Bool.not_eq_eq_eq_not, Bool.not_true, beq_eq_false_iff_ne, ne_eq]
          intro heq2
          exact hne (by rw [← hmid, heq2])
        · cases hok
  · intro invitationId accepted user s1 invitation team hinv hteam hOwner hok t1 hfind
    unfold handleInvitation at hok
    split at hok
    · cases hok
    next invitation' hinv' =>
      rw [hinv] at hinv'
      cases hinv'
      split at hok
      · split at hok
        · cases hok
        next team' hteam' =>
          rw [hteam] at hteam'
          cases hteam'
          split at hok
          · cases hok
            have hfind' : findBy Team.id invitation.teamId
                (updBy Team.id invitation.teamId
                  (joinTeamUpd (jsSetOfList (team.skills ++ user.skills))
                    (jsSetOfList (team.interests ++ user.interests))
                    { user with profileComplete := none }) s.teams) = some t1 := hfind
            rw [findBy_upd_joinTeam,
              show findBy Team.id invitation.teamId s.teams = some team from hteam] at hfind'
            cases hfind'
            obtain ⟨m, hm, hmid⟩ := hOwner
            exact ⟨m, (mem_arrayUnionMember _ _ m).mpr (Or.inl hm), hmid⟩
          · cases hok
      · cases hok
        have hfind' : findTeam s invitation.teamId = some t1 := hfind
        rw [hteam] at hfind'
        cases hfind'
        exact hOwner
  · intro user tid s1 team htid hteam hOwner hagree hok t1 hfind
    unfold deleteUserAccount at hok
    split at hok
    next heq => rw [htid] at heq; cases heq
    next tid' heq =>
      rw [htid] at heq
      cases heq
      split at hok
      next heq2 => rw [hteam] at heq2; cases heq2
      next team' hteam' =>
        rw [hteam] at hteam'
        cases hteam'
        split at hok
        · split at hok
          · cases hok
          · cases hok
            rw [findTeam_deleteUserDoc, findTeam_deleteConvDoc,
              findTeam_deleteTeamDoc_self] at hfind
            cases hfind
        next hflag =>
          have hne : ¬ user.id = team.ownerId := fun h => hflag (hagree h)
          dsimp only at hok
          split at hok
          · cases hok
          · cases hok
            have hfind' : findBy Team.id tid
                (updBy Team.id tid (removeMemberOnlyUpd user.id) s.teams) = some t1 := hfind
            rw [findBy_upd_removeMemberOnly,
              show findBy Team.id tid s.teams = some team from hteam] at hfind'
            cases hfind'
            obtain ⟨m, hm, hmid⟩ := hOwner
            refine ⟨m, ?_, hmid⟩
            simp only [removeMemberOnlyUpd, List.mem_filter]
            refine ⟨hm, ?_⟩
            simp only [Bool.not_eq_eq_eq_not, Bool.not_true, beq_eq_false_iff_ne, ne_eq]
            intro hfcontra
            exact hne (by rw [← hmid, hfcontra])

/-- A profile with no team, used to exercise createTeam. -/
def uFree : User :=
  { id := "f", name := "Fay", avatarInitial := "F", title := "", year := 1,
    about := "", email := "", department := "", interests := ["art"], skills := ["go"],
    workingPreferences := [], teamStatus := "Looking for a team",
    profileComplete := some true, teamId := none, isTeamOwner := none }

def sFree : Store := { users := [uFree], teams := [], invitations := [], conversations := [] }

def sAfterCreate : Store := (createTeam "Beta" uFree "t9" sFree).store

def tCreated : Team := (findTeam sAfterCreate "t9").getD tTeam

/-- C8 witness: the team created by uFree has its owner among its
members. -/
theorem owner_in_members_after_ops_witness : ownerInv tCreated :=
  (owner_in_members_after_ops sFree).1 "Beta" uFree "t9" sAfterCreate (by decide)
    tCreated (by decide)

/-- A user whose profile flag says "not an owner" although the team
record names her as owner. -/
def uC : User :=
  { id := "c", name := "Cam", avatarInitial := "C", title := "", year := 2,
    about := "", email := "", department := "", interests := [], skills := [],
    workingPreferences := [], teamStatus := "In a team", profileComplete := some true,
    teamId := some "t5", isTeamOwner := some false }

def uD : User :=
  { id := "d", name := "Dee", avatarInitial := "D", title := "", year := 2,
    about := "", email := "", department := "", interests := [], skills := [],
    workingPreferences := [], teamStatus := "In a team", profileComplete := some true,
    teamId := some "t5", isTeamOwner := none }

def tInc : Team :=
  { id := "t5", name := "Mixup", ownerId := "c",
    members := [{ uC with profileComplete := none }, { uD with profileComplete := none }],
    skills := [], interests := [] }

def convInc : Conversation :=
  { id := "team_t5", participantIds := ["c", "d"], participants := [],
    lastMessage := none, isGroupChat := true, groupName := some "Mixup",
    teamId := some "t5" }

/-- A store whose team record satisfies the owner invariant but whose
owner profile carries isTeamOwner = false. -/
def sInc : Store :=
  { users := [uC, uD], teams := [tInc], invitations := [], conversations := [convInc] }

def sIncAfterDelete : Store := (deleteUserAccount uC sInc).store

def tIncAfterDelete : Team := (findTeam sIncAfterDelete "t5").getD tTeam

/-- C8 counterexample: deleteUserAccount branches on the profile's
isTeamOwner flag; with the flag false it removes the actual owner "c"
from the member list while ownerId stays "c", producing a team whose
ownerId is no member's id — refuting the claim for deleteUserAccount. -/
theorem deleteUserAccount_breaks_owner_membership :
    (deleteUserAccount uC sInc).isOk = true ∧
    findTeam sInc "t5" = some tInc ∧ ownerInv tInc ∧
    findTeam sIncAfterDelete "t5" = some tIncAfterDelete ∧
    tIncAfterDelete.ownerId = "c" ∧
    ∀ m ∈ tIncAfterDelete.members, m.id ≠ "c" := by
  refine ⟨by decide, by decide, ⟨{ uC with profileComplete := none }, by decide, by decide⟩,
    by decide, by decide, by decide⟩

/-! ## C3: account deletion versus leaveTeam -/

/-- C3 (amended): for a user with a team, assuming the profile's
isTeamOwner flag agrees with actual ownership of the team record, the
owner-with-others rejection and the sole-owner team-and-conversation
deletion of deleteUserAccount coincide with leaveTeam; in the non-owner
member-removal branch both remove the same member from the team and the
same participant from the conversation, but deleteUserAccount leaves the
team's skills/interests aggregates unchanged (removeMemberOnlyUpd)
whereas leaveTeam recomputes them (leaveTeamUpd), so the resulting team
record contents do NOT coincide in general. -/
theorem deleteUserAccount_vs_leaveTeam (user : User) (tid : String) (s : Store)
    (team : Team) (u0 : User) (conv : Conversation)
    (htid : user.teamId = some tid)
    (hteam : findTeam s tid = some team)
    (hagree : jsTruthy user.isTeamOwner = (user.id == team.ownerId))
    (huser : findUser s user.id = some u0)
    (hconv : findConv s ("team_" ++ tid) = some conv) :
    ((user.id = team.ownerId ∧ team.members.length > 1) →
      leaveTeam user tid s =
        .err "You are the owner. Please transfer ownership or remove other members before leaving." s ∧
      deleteUserAccount user s =
        .err "You are the owner of a team with other members. Please transfer ownership or remove all members before deleting your account." s) ∧
    ((user.id = team.ownerId ∧ ¬ team.members.length > 1) →
      ∃ s1 s2, leaveTeam user tid s = .ok s1 ∧ deleteUserAccount user s = .ok s2 ∧
        s1.teams = s2.teams ∧ s1.conversations = s2.conversations ∧
        findTeam s1 tid = none ∧ findConv s1 ("team_" ++ tid) = none) ∧
    (user.id ≠ team.ownerId →
      ∃ s1 s2, leaveTeam user tid s = .ok s1 ∧ deleteUserAccount user s = .ok s2 ∧
        s1.conversations = s2.conversations ∧
        findTeam s1 tid = some (leaveTeamUpd user.id team) ∧
        findTeam s2 tid = some (removeMemberOnlyUpd user.id team)) := by
  refine ⟨?_, ?_, ?_⟩
  · rintro ⟨howner, hsize⟩
    have htrue : jsTruthy user.isTeamOwner = true := by
      rw [hagree]; exact beq_iff_eq.mpr howner
    constructor
    · simp only [leaveTeam, hteam]
      rw [if_pos howner, if_pos hsize]
    · simp only [deleteUserAccount, htid, hteam]
      rw [if_pos htrue, if_pos hsize]
  · rintro ⟨howner, hsize⟩
    have htrue : jsTruthy user.isTeamOwner = true := by
      rw [hagree]; exact beq_iff_eq.mpr howner
    have hL : leaveTeam user tid s = .ok (deleteConvDoc
        (deleteTeamDoc { s with users := updBy User.id user.id clearTeamFields s.users } tid)
        ("team_" ++ tid)) := by
      simp only [leaveTeam, hteam]
      rw [if_pos howner, if_neg hsize]
      simp only [updateUserDoc, huser]
    have hD : deleteUserAccount user s = .ok (deleteUserDoc
        (deleteConvDoc (deleteTeamDoc s tid) ("team_" ++ tid)) user.id) := by
      simp only [deleteUserAccount, htid, hteam]
      rw [if_pos htrue, if_neg hsize]
    exact ⟨_, _, hL, hD, rfl, rfl,
      by rw [findTeam_deleteConvDoc, findTeam_deleteTeamDoc_self],
      findConv_deleteConvDoc_self _ _⟩
  · intro hne
    have hfalse : jsTruthy user.isTeamOwner = false := by
      rw [hagree]; exact beq_eq_false_iff_ne.mpr hne
    have hL : leaveTeam user tid s = .ok { s with
        teams := updBy Team.id tid (leaveTeamUpd user.id) s.teams,
        conversations := updBy Conversation.id ("team_" ++ tid)
          (convRemoveUpd user.id) s.conversations,
        users := updBy User.id user.id clearTeamFields s.users } := by
      simp only [leaveTeam, hteam]
      rw [if_neg hne]
      simp only [updateUserDoc, huser, hconv]
    have hD : deleteUserAccount user s = .ok (deleteUserDoc
        { s with teams := updBy Team.id tid (removeMemberOnlyUpd user.id) s.teams,
                 conversations := updBy Conversation.id ("team_" ++ tid)
                   (convRemoveUpd user.id) s.conversations } user.id) := by
      simp only [deleteUserAccount, htid, hteam]
      rw [if_neg (by simp [hfalse] : ¬ jsTruthy user.isTeamOwner = true)]
      rw [show findConv { s with teams := updBy Team.id tid (removeMemberOnlyUpd user.id) s.teams }
        ("team_" ++ tid) = some conv from hconv]
    refine ⟨_, _, hL, hD, rfl, ?_, ?_⟩
    · show findBy Team.id tid (updBy Team.id tid (leaveTeamUpd user.id) s.teams) = _
      rw [findBy_upd_leaveTeam, show findBy Team.id tid s.teams = some team from hteam]
      rfl
    · show findBy Team.id tid (updBy Team.id tid (removeMemberOnlyUpd user.id) s.teams) = _
      rw [findBy_upd_removeMemberOnly, show findBy Team.id tid s.teams = some team from hteam]
      rfl

/-- C3 witness: the non-owner member "a" of the two-member store: both
operations succeed, the conversations agree, leaveTeam recomputes the
aggregates while deleteUserAccount keeps them. -/
theorem deleteUserAccount_vs_leaveTeam_witness :
    ∃ s1 s2, leaveTeam uA "t1" s0 = .ok s1 ∧ deleteUserAccount uA s0 = .ok s2 ∧
      s1.conversations = s2.conversations ∧
      findTeam s1 "t1" = some (leaveTeamUpd uA.id tTeam) ∧
      findTeam s2 "t1" = some (removeMemberOnlyUpd uA.id tTeam) :=
  (deleteUserAccount_vs_leaveTeam uA "t1" s0 tTeam uA convT (by decide) (by decide)
    (by decide) (by decide) (by decide)).2.2 (by decide)

/-- C3 counterexample: in the two-member store both the account deletion
of "a" and her leaveTeam succeed, but the resulting team collections
differ (leaveTeam recomputes the skills/interests aggregates;
deleteUserAccount does not), refuting "the resulting team record
contents coincide". -/
theorem deleteUserAccount_team_differs_from_leaveTeam :
    (leaveTeam uA "t1" s0).isOk = true ∧ (deleteUserAccount uA s0).isOk = true ∧
    (leaveTeam uA "t1" s0).store.teams ≠ (deleteUserAccount uA s0).store.teams := by
  decide

/-! ## C9: sendInvitation and the pending-invitation uniqueness -/

/-- C9 (confirmed): sendInvitation fails creating nothing when a pending
invitation for the same (team, recipient) already exists; otherwise it
appends exactly one pending invitation snapshotting the sender name and
team name; and the at-most-one-pending-per-pair property is preserved by
sendInvitation and by handleInvitation (the only operations that touch
the invitations collection), so it holds at all times under sequential
execution. -/
theorem sendInvitation_spec (team : Team) (fromUser toUser : User) (newId : String)
    (now : Nat) (s : Store) :
    ((∃ i ∈ s.invitations, i.teamId = team.id ∧ i.toUserId = toUser.id ∧
        i.status = "pending") →
      sendInvitation team fromUser toUser newId now s =
        .err "An invitation to this user for this team already exists." s) ∧
    ((¬ ∃ i ∈ s.invitations, i.teamId = team.id ∧ i.toUserId = toUser.id ∧
        i.status = "pending") →
      sendInvitation team fromUser toUser newId now s =
        .ok { s with invitations :=
          s.invitations ++ [mkInvitation team fromUser toUser newId now] }) ∧
    (atMostOnePending s →
      atMostOnePending (sendInvitation team fromUser toUser newId now s).store) ∧
    (∀ invitationId accepted user, atMostOnePending s →
      atMostOnePending (handleInvitation invitationId accepted user s).store) := by
  have ha : (∃ i ∈ s.invitations, i.teamId = team.id ∧ i.toUserId = toUser.id ∧
      i.status = "pending") →
      sendInvitation team fromUser toUser newId now s =
        .err "An invitation to this user for this team already exists." s := by
    rintro ⟨i, hi, h1, h2, h3⟩
    have hmem : i ∈ s.invitations.filter (fun i =>
        i.teamId == team.id && i.toUserId == toUser.id && i.status == "pending") :=
      List.mem_filter.mpr ⟨hi, by simp [h1, h2, h3]⟩
    have hne : (s.invitations.filter (fun i =>
        i.teamId == team.id && i.toUserId == toUser.id && i.status == "pending")).isEmpty
        = false := by
      rw [List.isEmpty_eq_false]
      exact List.ne_nil_of_mem hmem
    simp only [sendInvitation]
    rw [hne]
    rfl
  have hb : (¬ ∃ i ∈ s.invitations, i.teamId = team.id ∧ i.toUserId = toUser.id ∧
      i.status = "pending") →
      sendInvitation team fromUser toUser newId now s =
        .ok { s with invitations :=
          s.invitations ++ [mkInvitation team fromUser toUser newId now] } := by
    intro hex
    have hnil : s.invitations.filter (fun i =>
        i.teamId == team.id && i.toUserId == toUser.id && i.status == "pending") = [] := by
      rw [List.filter_eq_nil_iff]
      intro a ha2 hp
      simp only [Bool.and_eq_true, beq_iff_eq] at hp
      exact hex ⟨a, ha2, hp.1.1, hp.1.2, hp.2⟩
    simp only [sendInvitation]
    rw [hnil]
    rfl
  have hcnt0 : (¬ ∃ i ∈ s.invitations, i.teamId = team.id ∧ i.toUserId = toUser.id ∧
      i.status = "pending") →
      s.invitations.countP (fun i =>
        i.teamId == team.id && i.toUserId == toUser.id && i.status == "pending") = 0 := by
    intro hex
    rw [List.countP_eq_zero]
    intro a ha2 hp
    simp only [Bool.and_eq_true, beq_iff_eq] at hp
    exact hex ⟨a, ha2, hp.1.1, hp.1.2, hp.2⟩
  refine ⟨ha, hb, ?_, ?_⟩
  · intro h
    by_cases hex : ∃ i ∈ s.invitations, i.teamId = team.id ∧ i.toUserId = toUser.id ∧
        i.status = "pending"
    · rw [ha hex]
      exact h
    · rw [hb hex]
      intro tid uid
      show List.countP (fun i => i.teamId == tid && i.toUserId == uid && i.status == "pending")
        (s.invitations ++ [mkInvitation team fromUser toUser newId now]) ≤ 1
      rw [List.countP_append]
      by_cases hpair : team.id = tid ∧ toUser.id = uid
      · obtain ⟨hp1, hp2⟩ := hpair
        subst hp1
        subst hp2
        have h0 := hcnt0 hex
        rw [h0]
        simp [List.countP_cons, mkInvitation]
      · have hone : List.countP
            (fun i => i.teamId == tid && i.toUserId == uid && i.status == "pending")
            [mkInvitation team fromUser toUser newId now] = 0 := by
          rw [List.countP_eq_zero]
          intro a ha2 hp
          rw [List.mem_singleton] at ha2
          subst ha2
          simp only [mkInvitation, Bool.and_eq_true, beq_iff_eq] at hp
          exact hpair ⟨hp.1.1, hp.1.2⟩
        rw [hone]
        have h2 := h tid uid
        omega
  · intro invitationId accepted user h
    unfold handleInvitation
    split
    · exact h
    · split
      · split
        · exact h
        · split
          · intro tid uid
            exact le_trans (List.Sublist.countP_le _ (List.filter_sublist _)) (h tid uid)
          · exact h
      · intro tid uid
        exact le_trans (List.Sublist.countP_le _ (List.filter_sublist _)) (h tid uid)

/-- C9 witness: in the two-member store (no pending invitations),
inviting "b" to team "t1" creates exactly the snapshot invitation. -/
theorem sendInvitation_spec_witness :
    sendInvitation tTeam uOwner uB "i9" 5 s0 =
      .ok { s0 with invitations :=
        s0.invitations ++ [mkInvitation tTeam uOwner uB "i9" 5] } :=
  (sendInvitation_spec tTeam uOwner uB "i9" 5 s0).2.1 (by decide)

/-! ## C10: searchUsers never returns the caller -/

/-- C10 (confirmed): for every combination of name, skill, interest and
availability filters, searchUsers never returns the authenticated
caller's own profile (the store query always carries the id-inequality
clause, and the client-side name filter only narrows the result). -/
theorem searchUsers_excludes_caller (currentUserId : String) (fs : SearchFilters)
    (s : Store) : ∀ u ∈ searchUsers currentUserId fs s, u.id ≠ currentUserId := by
  intro u hu
  unfold searchUsers at hu
  have hbase : u ∈ s.users.filter (fun u =>
      !(u.id == currentUserId) && skillClause fs u && interestClause fs u
        && availabilityClause fs u) := by
    split at hu
    · split at hu
      · exact hu
      · exact (List.mem_filter.mp hu).1
    · exact hu
  have hp := (List.mem_filter.mp hbase).2
  simp only [Bool.and_eq_true, Bool.not_eq_eq_eq_not, Bool.not_true,
    beq_eq_false_iff_ne, ne_eq] at hp
  exact hp.1.1.1

/-- C10 witness: searching with empty filters as user "o" in the
two-member store cannot return "o"; in particular the returned user "a"
differs from the caller. -/
theorem searchUsers_excludes_caller_witness : uA.id ≠ "o" :=
  searchUsers_excludes_caller "o"
    { name := none, skill := none, interest := none, availability := none } s0 uA
    (by decide)

/-! ## C7: the recommendation scorer -/

theorem mem_insertDesc (x a : ScoredTeam) (l : List ScoredTeam) :
    a ∈ insertDesc x l ↔ a = x ∨ a ∈ l := by
  induction l with
  | nil => simp [insertDesc]
  | cons y ys ih =>
    by_cases hc : y.score < x.score
    · simp only [insertDesc, if_pos hc, List.mem_cons]
    · simp only [insertDesc, if_neg hc, List.mem_cons, ih]
      tauto

theorem pairwise_insertDesc (x : ScoredTeam) (l : List ScoredTeam)
    (h : l.Pairwise (fun a b => b.score ≤ a.score)) :
    (insertDesc x l).Pairwise (fun a b => b.score ≤ a.score) := by
  induction l with
  | nil => simp [insertDesc]
  | cons y ys ih =>
    rw [List.pairwise_cons] at h
    obtain ⟨h1, h2⟩ := h
    by_cases hc : y.score < x.score
    · simp only [insertDesc, if_pos hc]
      rw [List.pairwise_cons]
      refine ⟨?_, ?_⟩
      · intro z hz
        rcases List.mem_cons.mp hz with rfl | hz'
        · exact Nat.le_of_lt hc
        · exact Nat.le_trans (h1 z hz') (Nat.le_of_lt hc)
      · rw [List.pairwise_cons]
        exact ⟨h1, h2⟩
    · simp only [insertDesc, if_neg hc]
      rw [List.pairwise_cons]
      refine ⟨?_, ih h2⟩
      intro z hz
      rcases (mem_insertDesc x z ys).mp hz with rfl | hz'
      · exact Nat.le_of_not_lt hc
      · exact h1 z hz'

theorem pairwise_foldl_insertDesc (l : List ScoredTeam) :
    ∀ acc, acc.Pairwise (fun a b => b.score ≤ a.score) →
      (l.foldl (fun acc x => insertDesc x acc) acc).Pairwise
        (fun a b => b.score ≤ a.score) := by
  induction l with
  | nil => intro acc h; exact h
  | cons x xs ih =>
    intro acc h
    exact ih _ (pairwise_insertDesc x acc h)

theorem sortByScoreDesc_pairwise (l : List ScoredTeam) :
    (sortByScoreDesc l).Pairwise (fun a b => b.score ≤ a.score) :=
  pairwise_foldl_insertDesc l [] (by simp)

theorem mem_foldl_insertDesc (a : ScoredTeam) (l : List ScoredTeam) :
    ∀ acc, a ∈ l.foldl (fun acc x => insertDesc x acc) acc ↔ a ∈ acc ∨ a ∈ l := by
  induction l with
  | nil => intro acc; simp
  | cons x xs ih =>
    intro acc
    rw [List.foldl_cons, ih, mem_insertDesc]
    simp only [List.mem_cons]
    tauto

theorem mem_sortByScoreDesc (a : ScoredTeam) (l : List ScoredTeam) :
    a ∈ sortByScoreDesc l ↔ a ∈ l := by
  rw [sortByScoreDesc, mem_foldl_insertDesc]
  simp

theorem filter_insertDesc (k : Nat) (x : ScoredTeam) (l : List ScoredTeam)
    (h : l.Pairwise (fun a b => b.score ≤ a.score)) :
    (insertDesc x l).filter (fun r => r.score == k) =
      if x.score = k then l.filter (fun r => r.score == k) ++ [x]
      else l.filter (fun r => r.score == k) := by
  induction l with
  | nil =>
    by_cases hx : x.score = k <;> simp [insertDesc, List.filter_cons, hx]
  | cons y ys ih =>
    rw [List.pairwise_cons] at h
    obtain ⟨h1, h2⟩ := h
    by_cases hc : y.score < x.score
    · simp only [insertDesc, if_pos hc]
      by_cases hx : x.score = k
      · have hyk : ¬ y.score = k := by omega
        have hnil : ys.filter (fun r => r.score == k) = [] := by
          rw [List.filter_eq_nil_iff]
          intro a ha
          have h3 := h1 a ha
          simp only [beq_iff_eq]
          omega
        simp [List.filter_cons, hx, hyk, hnil]
      · simp [List.filter_cons, hx]
    · simp only [insertDesc, if_neg hc]
      by_cases hx : x.score = k <;> by_cases hy : y.score = k <;>
        simp [List.filter_cons, hx, hy, ih h2]

theorem filter_foldl_insertDesc (k : Nat) (l : List ScoredTeam) :
    ∀ acc, acc.Pairwise (fun a b => b.score ≤ a.score) →
      (l.foldl (fun acc x => insertDesc x acc) acc).filter (fun r => r.score == k) =
        acc.filter (fun r => r.score == k) ++ l.filter (fun r => r.score == k) := by
  induction l with
  | nil => intro acc h; simp
  | cons x xs ih =>
    intro acc h
    rw [List.foldl_cons, ih _ (pairwise_insertDesc x acc h), filter_insertDesc k x acc h,
      List.filter_cons]
    by_cases hx : x.score = k
    · rw [if_pos hx, if_pos (by simpa using hx)]
      simp
    · rw [if_neg hx, if_neg (by simpa using hx)]

/-- Stability of the descending sort: for every score value, the
entries with that score appear in the sorted output exactly as they
appear in the input. -/
theorem sortByScoreDesc_stable (l : List ScoredTeam) (k : Nat) :
    (sortByScoreDesc l).filter (fun r => r.score == k) =
      l.filter (fun r => r.score == k) := by
  rw [sortByScoreDesc, filter_foldl_insertDesc k l [] (by simp)]
  rfl

/-- C7 (confirmed): every recommended team is neither owned by the user
nor contains the user among its members, has positive score, and carries
exactly the documented score and matched tag lists; the output is sorted
by descending score, and within each score level it preserves the input
order of the (filtered, scored) team list. -/
theorem getRecommendedTeams_spec (currentUser : User) (teams : List Team) :
    (∀ r ∈ getRecommendedTeams currentUser teams,
      r.toTeam.ownerId ≠ currentUser.id ∧
      (∀ m ∈ r.toTeam.members, m.id ≠ currentUser.id) ∧
      0 < r.score ∧
      r.commonSkills = commonOf currentUser.skills r.toTeam.skills ∧
      r.commonInterests = commonOf currentUser.interests r.toTeam.interests ∧
      r.score = 2 * (commonOf currentUser.skills r.toTeam.skills).length +
        (commonOf currentUser.interests r.toTeam.interests).length) ∧
    (getRecommendedTeams currentUser teams).Pairwise (fun a b => b.score ≤ a.score) ∧
    (∀ k, (getRecommendedTeams currentUser teams).filter (fun r => r.score == k) =
      (recommendPool currentUser teams).filter (fun r => r.score == k)) := by
  refine ⟨?_, sortByScoreDesc_pairwise _, fun k => sortByScoreDesc_stable _ k⟩
  intro r hr
  rw [getRecommendedTeams, mem_sortByScoreDesc] at hr
  rw [recommendPool] at hr
  obtain ⟨hmap, hpos⟩ := List.mem_filter.mp hr
  obtain ⟨t, htmem, hrt⟩ := List.mem_map.mp hmap
  obtain ⟨ht1, ht2⟩ := List.mem_filter.mp htmem
  obtain ⟨_, ht0⟩ := List.mem_filter.mp ht1
  subst hrt
  refine ⟨?_, ?_, ?_, rfl, rfl, rfl⟩
  · intro heq
    simp only [Bool.not_eq_eq_eq_not, Bool.not_true, beq_eq_false_iff_ne, ne_eq] at ht0
    exact ht0 heq
  · intro m hm heq
    have h4 : t.members.any (fun m => m.id == currentUser.id) = false := by
      simpa using ht2
    rw [List.any_eq_false] at h4
    exact absurd (by simpa using heq) (by simpa using h4 m hm)
  · simpa using hpos

/-- A user with no team whose skills/interests overlap the sample
team's. -/
def uRec : User :=
  { id := "z", name := "Zoe", avatarInitial := "Z", title := "", year := 3,
    about := "", email := "", department := "", interests := ["ml"], skills := ["x"],
    workingPreferences := [], teamStatus := "Looking for a team",
    profileComplete := some true, teamId := none, isTeamOwner := none }

def rRec : ScoredTeam := scoreTeam uRec tTeam

/-- C7 witness: in the singleton team list, the returned entry has
positive score, is not owned by the caller, and the output is sorted. -/
theorem getRecommendedTeams_spec_witness :
    (0 < rRec.score ∧ rRec.toTeam.ownerId ≠ uRec.id) ∧
    (getRecommendedTeams uRec [tTeam]).Pairwise (fun a b => b.score ≤ a.score) :=
  ⟨⟨((getRecommendedTeams_spec uRec [tTeam]).1 rRec (by decide)).2.2.1,
    ((getRecommendedTeams_spec uRec [tTeam]).1 rRec (by decide)).1⟩,
    (getRecommendedTeams_spec uRec [tTeam]).2.1⟩

end ProjectMates
